import Mathlib

/-!
Verification of the AdaptorPrototypeMk4 replication core.

This file shallowly embeds the Region Registry / Change Tracker
(`change_tracking.cpp`), the Synchronizer emission loop and the
Receiver / Reassembler (`network_sync.cpp`) as pure Lean functions over an
explicit state, and proves the testable properties of the specification
against them.  Machine integers are modelled as `Nat` with explicit
`% 2 ^ 64` where the C code relies on `uint64_t` wraparound.
-/

namespace AdaptorMk4

/-- Modulus of `uint64_t` arithmetic. -/
def U64MOD : Nat := 2 ^ 64

theorem U64MOD_eq : U64MOD = 18446744073709551616 := by norm_num [U64MOD]

/-- UPDATE_TIMEOUT_MS constant from `change_tracking.h`. -/
def UPDATE_TIMEOUT_MS : Nat := 5000

/-- Byte size of the `MemoryLayout` struct (`memory_layout.h`) on the x64
target: `uint64_t version` (8) + `int data` (4, padded to 8) +
`uint64_t last_modified` (8) + `bool dirty` (1, padded to 8) = 32 bytes.
The Synchronizer's empty-pending fallback sends exactly this many bytes. -/
def MEMORY_LAYOUT_SIZE : Nat := 32

/-- `MessageType` enum from `sync_message.h`. -/
inductive MessageType where
  | MSG_SINGLE_UPDATE
  | MSG_START_UPDATE
  | MSG_UPDATE_CHUNK
  | MSG_END_UPDATE
deriving DecidableEq

export MessageType (MSG_SINGLE_UPDATE MSG_START_UPDATE MSG_UPDATE_CHUNK MSG_END_UPDATE)

/-- `SyncMessage` wire frame from `sync_message.h`.  The fixed 1024-byte
`data` buffer is modelled as a byte list of which the first `size` bytes
are meaningful. -/
structure SyncMessage where
  memoryName : String
  msgType : MessageType
  updateId : Nat
  offset : Nat
  size : Nat
  timestamp : Nat
  data : List Nat
deriving DecidableEq

instance : Inhabited SyncMessage :=
  ⟨⟨"", MSG_SINGLE_UPDATE, 0, 0, 0, 0, []⟩⟩

/-- `MemoryChange` record from `change_tracking.h`. -/
structure MemoryChange where
  offset : Nat
  size : Nat
  inProgress : Bool
deriving DecidableEq

/-- `UpdateInfo` reassembly record from `change_tracking.h`. -/
structure UpdateInfo where
  updateId : Nat
  chunks : List SyncMessage
  startTime : Nat
deriving DecidableEq

/-- A registered shared-memory region: the `version` / `dirty` metadata of
its `MemoryLayout` prefix together with the full byte buffer. -/
structure MemRegion where
  version : Nat
  dirty : Bool
  bytes : List Nat
deriving DecidableEq

/-- Callback invocation `(memoryName, offset, size)` of the registered
network-update callback. -/
def NetEvent : Type := String × Nat × Nat

instance : DecidableEq NetEvent := by
  unfold NetEvent
  infer_instance

/-- Combined mutable state of the replication core: the region registry
(`shared_memories`), the pending-change log (`g_pendingChanges`), the
reassembly table (`g_inProgressUpdates`) and whether a network-update
callback is registered (`g_networkCallback != NULL`). -/
structure SyncState where
  regions : List (String × MemRegion)
  pending : List (String × List MemoryChange)
  inflight : List (Nat × UpdateInfo)
  callbackRegistered : Bool
deriving DecidableEq

/-! ### Association-list operations, modelling `std::map` find / `operator[]` / erase -/

/-- Lookup by key in an association list (`std::map::find`). -/
def alookup {κ β : Type} [DecidableEq κ] : List (κ × β) → κ → Option β
  | [], _ => none
  | (k', v) :: t, k => if k = k' then some v else alookup t k

/-- Insert-or-replace by key (`std::map::operator[] = v`). -/
def aset {κ β : Type} [DecidableEq κ] : List (κ × β) → κ → β → List (κ × β)
  | [], k, v => [(k, v)]
  | (k', v') :: t, k, v =>
      if k = k' then (k, v) :: t else (k', v') :: aset t k v

/-- Erase by key (`std::map::erase`). -/
def aerase {κ β : Type} [DecidableEq κ] (l : List (κ × β)) (k : κ) : List (κ × β) :=
  l.filter (fun p => decide (p.1 ≠ k))

theorem alookup_aset_self {κ β : Type} [DecidableEq κ] (l : List (κ × β)) (k : κ) (v : β) :
    alookup (aset l k v) k = some v := by
  induction l with
  | nil => simp [aset, alookup]
  | cons p t ih =>
      by_cases h : k = p.1
      · simp [aset, h, alookup]
      · simp [aset, h, alookup, ih]

theorem alookup_aset_ne {κ β : Type} [DecidableEq κ] (l : List (κ × β)) (k k' : κ) (v : β)
    (h : k' ≠ k) : alookup (aset l k v) k' = alookup l k' := by
  induction l with
  | nil => simp [aset, alookup, h]
  | cons p t ih =>
      by_cases hk : k = p.1
      · subst hk
        simp [aset, alookup, h, ih]
      · by_cases hk' : k' = p.1
        · simp [aset, hk, alookup, hk']
        · simp [aset, hk, alookup, hk', ih]

theorem mem_aerase {κ β : Type} [DecidableEq κ] (l : List (κ × β)) (k : κ) (p : κ × β) :
    p ∈ aerase l k ↔ p ∈ l ∧ p.1 ≠ k := by
  simp [aerase, List.mem_filter]

/-! ### Byte-buffer writes, modelling `memcpy(buf + off, data, |data|)` -/

/-- Overwrite the bytes of `buf` starting at offset `off` with `data`
(`memcpy` into a region buffer; bytes past the end of `buf` are not
written). -/
def writeMem : List Nat → Nat → List Nat → List Nat
  | buf, _, [] => buf
  | [], _, _ :: _ => []
  | b :: bs, o + 1, d :: ds => b :: writeMem bs o (d :: ds)
  | _ :: bs, 0, d :: ds => d :: writeMem bs 0 ds

theorem writeMem_length (buf : List Nat) (off : Nat) (data : List Nat) :
    (writeMem buf off data).length = buf.length := by
  induction buf generalizing off data with
  | nil => cases data <;> simp [writeMem]
  | cons b bs ih =>
      cases data with
      | nil => simp [writeMem]
      | cons d ds =>
          cases off with
          | zero => simp [writeMem, ih]
          | succ o => simp [writeMem, ih]

theorem writeMem_get?_in (buf : List Nat) (off : Nat) (data : List Nat) (i : Nat)
    (hoff : off ≤ i) (hlt : i < off + data.length) (hbuf : i < buf.length) :
    (writeMem buf off data).get? i = some (data.getD (i - off) 0) := by
  induction buf generalizing off data i with
  | nil => simp at hbuf
  | cons b bs ih =>
      cases data with
      | nil => simp at hlt; omega
      | cons d ds =>
          cases off with
          | zero =>
              cases i with
              | zero => simp [writeMem]
              | succ j =>
                  have hj : j < ds.length := by simp at hlt; omega
                  have hjb : j < bs.length := by simp at hbuf; omega
                  simp only [writeMem, List.get?]
                  rw [ih 0 ds j (Nat.zero_le _) (by omega) hjb]
                  simp
          | succ o =>
              cases i with
              | zero => omega
              | succ j =>
                  have hrec := ih o (d :: ds) j (by omega) (by simp at hlt ⊢; omega)
                    (by simp at hbuf; omega)
                  simp only [writeMem, List.get?]
                  rw [hrec]
                  have hsub : j + 1 - (o + 1) = j - o := by omega
                  rw [hsub]

theorem writeMem_get?_out (buf : List Nat) (off : Nat) (data : List Nat) (i : Nat)
    (h : i < off ∨ off + data.length ≤ i) :
    (writeMem buf off data).get? i = buf.get? i := by
  induction buf generalizing off data i with
  | nil => cases data <;> simp [writeMem]
  | cons b bs ih =>
      cases data with
      | nil => simp [writeMem]
      | cons d ds =>
          cases off with
          | zero =>
              cases i with
              | zero => simp at h
              | succ j =>
                  have hj : j < 0 ∨ 0 + ds.length ≤ j := by simp at h ⊢; omega
                  simp only [writeMem, List.get?]
                  exact ih 0 ds j hj
          | succ o =>
              cases i with
              | zero => simp [writeMem]
              | succ j =>
                  have hj : j < o ∨ o + (d :: ds).length ≤ j := by
                    simp at h ⊢; omega
                  simp only [writeMem, List.get?]
                  exact ih o (d :: ds) j hj

/-! ### Change Tracker operations (`change_tracking.cpp`) -/

/-- `applyUpdate` (change_tracking.cpp:144-159): copy `message.size` bytes
of `message.data` into the region at `message.offset`, then invoke the
network-update callback with `(name, offset, size)` if one is registered.
If the region name is unknown (`getSharedMemory` returns null) nothing
happens.  Returns the new state and the callback invocations made. -/
def applyUpdate (st : SyncState) (message : SyncMessage) : SyncState × List NetEvent :=
  match alookup st.regions message.memoryName with
  | none => (st, [])
  | some r =>
      ({ st with
          regions := aset st.regions message.memoryName
            { r with bytes := writeMem r.bytes message.offset (message.data.take message.size) } },
       if st.callbackRegistered then [(message.memoryName, message.offset, message.size)] else [])

/-- Sequential application of a list of frames via `applyUpdate`,
accumulating callback invocations (the apply loop of
`applyMultipartUpdate`). -/
def applyChunks (st : SyncState) (msgs : List SyncMessage) : SyncState × List NetEvent :=
  msgs.foldl
    (fun acc m =>
      let r := applyUpdate acc.1 m
      (r.1, acc.2 ++ r.2))
    (st, [])

/-- Sort key used by `applyMultipartUpdate`: ascending frame offset. -/
def msgLe (a b : SyncMessage) : Prop := a.offset ≤ b.offset

/-- Strict version of the sort key, used to state uniqueness of the sorted
order when offsets are pairwise distinct. -/
def msgLt (a b : SyncMessage) : Prop := a.offset < b.offset

instance : DecidableRel msgLe := fun a b => Nat.decLe a.offset b.offset

instance : DecidableRel msgLt := fun a b => Nat.decLt a.offset b.offset

instance : IsTotal SyncMessage msgLe := ⟨fun a b => Nat.le_total a.offset b.offset⟩

instance : IsTrans SyncMessage msgLe := ⟨fun _ _ _ h₁ h₂ => Nat.le_trans h₁ h₂⟩

instance : IsAntisymm SyncMessage msgLt :=
  ⟨fun _ _ h₁ h₂ => absurd (Nat.lt_trans h₁ h₂) (Nat.lt_irrefl _)⟩

/-- The `std::sort(chunks, by offset <)` call of `applyMultipartUpdate`,
modelled by insertion sort with the induced non-strict comparator (any
comparator-sorted permutation; unique when offsets are distinct). -/
def sortChunks (l : List SyncMessage) : List SyncMessage :=
  List.insertionSort msgLe l

/-- `applyMultipartUpdate` (change_tracking.cpp:161-182): locate the
in-flight update, sort its chunks by ascending offset (in place), and
apply each chunk in that order.  Unknown ids are a no-op. -/
def applyMultipartUpdate (st : SyncState) (updateId : Nat) : SyncState × List NetEvent :=
  match alookup st.inflight updateId with
  | none => (st, [])
  | some info =>
      let sorted := sortChunks info.chunks
      let st1 := { st with inflight := aset st.inflight updateId { info with chunks := sorted } }
      applyChunks st1 sorted

/-- `markRegionChanged` (change_tracking.cpp:79-103): if the region is
unknown, report and return; otherwise append `(offset, size, false)` to
the pending list of the region (creating the list if absent), then
increment the region's 64-bit `version` and set `dirty`. -/
def markRegionChanged (st : SyncState) (memoryName : String) (offset size : Nat) : SyncState :=
  match alookup st.regions memoryName with
  | none => st
  | some r =>
      { st with
          pending := aset st.pending memoryName
            ((alookup st.pending memoryName).getD [] ++ [⟨offset, size, false⟩]),
          regions := aset st.regions memoryName
            { r with version := (r.version + 1) % U64MOD, dirty := true } }

/-- A producer performing a sequence of `markRegionChanged` calls on one
region. -/
def markSeq (st : SyncState) (memoryName : String) : List (Nat × Nat) → SyncState
  | [] => st
  | (o, s) :: rest => markSeq (markRegionChanged st memoryName o s) memoryName rest

/-- `generateUniqueId` (change_tracking.cpp:109-121): build
`(GetTickCount64() << 32) | (rand() & 0xFFFFFFFF)` in `uint64_t`
arithmetic; if the result equals the previously returned id, increment it.
`tick` and `rnd` stand for the clock and `rand()` samples of this call. -/
def generateUniqueId (lastId tick rnd : Nat) : Nat :=
  let newId := tick % 2 ^ 32 * 2 ^ 32 + rnd % 2 ^ 32
  if newId = lastId then (newId + 1) % U64MOD else newId

/-- Outputs of consecutive `generateUniqueId` calls: the returned id of
each call becomes the `lastId` of the next (the `static uint64_t lastId`
variable). -/
def generateUniqueIdSeq (lastId : Nat) : List (Nat × Nat) → List Nat
  | [] => []
  | (tick, rnd) :: rest =>
      let i := generateUniqueId lastId tick rnd
      i :: generateUniqueIdSeq i rest

/-- Timeout test of `checkUpdateTimeouts`:
`currentTime - it->second.startTime > UPDATE_TIMEOUT_MS` in `uint64_t`
(wraparound) arithmetic. -/
def timedOut64 (now startTime : Nat) : Bool :=
  decide (UPDATE_TIMEOUT_MS < (now + U64MOD - startTime) % U64MOD)

/-- `checkUpdateTimeouts` (change_tracking.cpp:123-142): collect the ids of
every in-flight update whose first-chunk timestamp is older than
`UPDATE_TIMEOUT_MS`, then erase each collected id from the table.  Returns
the new state, the reported (removed) ids, and the callback invocations
made (none). -/
def checkUpdateTimeouts (st : SyncState) (now : Nat) : SyncState × List Nat × List NetEvent :=
  let timeoutIds := (st.inflight.filter (fun p => timedOut64 now p.2.startTime)).map (fun p => p.1)
  ({ st with inflight := timeoutIds.foldl (fun t k => aerase t k) st.inflight },
   timeoutIds, [])

/-! ### Receiver / Reassembler (`network_sync.cpp`, receiveThreadFunc) -/

/-- Default-constructed `UpdateInfo` produced by `std::map::operator[]`
on a missing key (value-initialized: zero id, empty chunk list, zero
time). -/
def emptyUpdateInfo : UpdateInfo := ⟨0, [], 0⟩

/-- One message-dispatch step of `receiveThreadFunc`
(network_sync.cpp:293-347): classify the received frame by type and apply
/ buffer it.  `now` is the `GetTickCount64()` sample taken for a START
frame.  Returns the new state and the callback invocations made. -/
def processMessage (st : SyncState) (now : Nat) (message : SyncMessage) :
    SyncState × List NetEvent :=
  match message.msgType with
  | MSG_SINGLE_UPDATE => applyUpdate st message
  | MSG_START_UPDATE =>
      let info := (alookup st.inflight message.updateId).getD emptyUpdateInfo
      ({ st with
          inflight := aset st.inflight message.updateId
            ⟨message.updateId, info.chunks ++ [message], now⟩ },
       [])
  | MSG_UPDATE_CHUNK =>
      match alookup st.inflight message.updateId with
      | some info =>
          ({ st with
              inflight := aset st.inflight message.updateId
                { info with chunks := info.chunks ++ [message] } },
           [])
      | none => (st, [])
  | MSG_END_UPDATE =>
      match alookup st.inflight message.updateId with
      | some info =>
          let st1 :=
            { st with
                inflight := aset st.inflight message.updateId
                  { info with chunks := info.chunks ++ [message] } }
          let res := applyMultipartUpdate st1 message.updateId
          ({ res.1 with inflight := aerase res.1.inflight message.updateId }, res.2)
      | none => applyUpdate st message

/-! ### Synchronizer emission cycle (`network_sync.cpp`, memorySyncThreadFunc) -/

/-- One frame constructed by the emission loop
(network_sync.cpp:417-471) for change `c` at position `i` of an `n`-entry
batch: type chosen by position, shared `uid`, the change's `(offset,size)`
and the region bytes of that range copied at emission time. -/
def mkSyncFrame (memoryName : String) (bytes : List Nat) (uid ts n i : Nat)
    (c : MemoryChange) : SyncMessage :=
  { memoryName := memoryName,
    msgType :=
      if 1 < n then
        if i = 0 then MSG_START_UPDATE
        else if i = n - 1 then MSG_END_UPDATE
        else MSG_UPDATE_CHUNK
      else MSG_SINGLE_UPDATE,
    updateId := uid,
    offset := c.offset,
    size := c.size,
    timestamp := ts,
    data := (bytes.drop c.offset).take c.size }

/-- The emission for-loop over the captured change list, with `i` the
loop index. -/
def emitFrames (memoryName : String) (bytes : List Nat) (uid ts n : Nat) :
    Nat → List MemoryChange → List SyncMessage
  | _, [] => []
  | i, c :: cs =>
      mkSyncFrame memoryName bytes uid ts n i c :: emitFrames memoryName bytes uid ts n (i + 1) cs

/-- The full-region fallback frame (network_sync.cpp:475-496): one SINGLE
frame at offset 0 whose size is `sizeof(MemoryLayout)` and whose payload
is the first `sizeof(MemoryLayout)` bytes of the region. -/
def fallbackFrame (memoryName : String) (bytes : List Nat) (uid ts : Nat) : SyncMessage :=
  { memoryName := memoryName,
    msgType := MSG_SINGLE_UPDATE,
    updateId := uid,
    offset := 0,
    size := MEMORY_LAYOUT_SIZE,
    timestamp := ts,
    data := bytes.take MEMORY_LAYOUT_SIZE }

/-- One body iteration of `memorySyncThreadFunc` (network_sync.cpp:399-524)
for region `memoryName`, given the worker's `lastVersion` and a fresh
update id `uid` from `generateUniqueId`.  When a change is detected
(`version > lastVersion && dirty`): emit the pending changes (or the
fallback frame when none are recorded), clear the emitted pending list,
advance `lastVersion` to the region's version and clear `dirty`.  Returns
the new state, the frames emitted (each is then fanned out to every
peer), and the new `lastVersion`. -/
def memorySyncCycle (st : SyncState) (memoryName : String) (lastVersion uid ts : Nat) :
    SyncState × List SyncMessage × Nat :=
  match alookup st.regions memoryName with
  | none => (st, [], lastVersion)
  | some r =>
      if lastVersion < r.version ∧ r.dirty then
        match alookup st.pending memoryName with
        | some changes =>
            if changes.isEmpty then
              ({ st with regions := aset st.regions memoryName { r with dirty := false } },
               [fallbackFrame memoryName r.bytes uid ts], r.version)
            else
              ({ st with
                  pending := aset st.pending memoryName [],
                  regions := aset st.regions memoryName { r with dirty := false } },
               emitFrames memoryName r.bytes uid ts changes.length 0 changes, r.version)
        | none =>
            ({ st with regions := aset st.regions memoryName { r with dirty := false } },
             [fallbackFrame memoryName r.bytes uid ts], r.version)
      else (st, [], lastVersion)

/-! ### Peer roster (`network_sync.cpp`, connectToRemoteNode) -/

/-- `connectToRemoteNode` (network_sync.cpp:627-646): insert the
`"ip:port"` endpoint into the remote-node roster (`std::map`, so an
already-present endpoint is not duplicated), then build the probe frame
(`memoryName = "TEST"`, `offset = 0`, `size = 0`; the remaining fields of
the stack-allocated `SyncMessage` are left uninitialized, modelled by
`stackJunk`).  Returns the roster, the probe frame sent, and the
function's return value (`sendOk`, the result of the probe send). -/
def connectToRemoteNode (roster : List (String × String)) (ip : String) (port : Nat)
    (stackJunk : SyncMessage) (sendOk : Bool) :
    List (String × String) × SyncMessage × Bool :=
  let nodeKey := ip ++ ":" ++ toString port
  let roster1 := aset roster nodeKey nodeKey
  let testMsg := { stackJunk with memoryName := "TEST", offset := 0, size := 0 }
  (roster1, testMsg, sendOk)

/-! ### Helper lemmas -/

theorem get?_take_lt {α : Type} : ∀ (l : List α) (m n : Nat), n < m →
    (l.take m).get? n = l.get? n
  | [], _, _, _ => by simp
  | _ :: _, 0, _, h => by omega
  | a :: l, m + 1, 0, _ => by simp
  | a :: l, m + 1, n + 1, h => by
      simp only [List.take, List.get?]
      exact get?_take_lt l m n (by omega)

theorem mem_keys_aset {κ β : Type} [DecidableEq κ] (l : List (κ × β)) (k a : κ) (v : β) :
    a ∈ (aset l k v).map Prod.fst ↔ a = k ∨ a ∈ l.map Prod.fst := by
  induction l with
  | nil => simp [aset]
  | cons p t ih =>
      by_cases h : k = p.1
      · subst h
        simp [aset]
      · simp only [aset, if_neg h, List.map_cons, List.mem_cons, ih]
        tauto

theorem nodup_keys_aset {κ β : Type} [DecidableEq κ] (l : List (κ × β)) (k : κ) (v : β)
    (h : (l.map Prod.fst).Nodup) : ((aset l k v).map Prod.fst).Nodup := by
  induction l with
  | nil => simp [aset]
  | cons p t ih =>
      obtain ⟨k', v'⟩ := p
      rw [List.map_cons, List.nodup_cons] at h
      by_cases hk : k = k'
      · subst hk
        have he : aset ((k, v') :: t) k v = (k, v) :: t := by simp [aset]
        rw [he, List.map_cons, List.nodup_cons]
        exact h
      · have he : aset ((k', v') :: t) k v = (k', v') :: aset t k v := by simp [aset, hk]
        rw [he, List.map_cons, List.nodup_cons]
        refine ⟨fun hc => ?_, ih h.2⟩
        rcases (mem_keys_aset t k k' v).mp hc with h1 | h1
        · exact hk h1.symm
        · exact h.1 h1

theorem nodup_keys_mem_eq {κ β : Type} [DecidableEq κ] :
    ∀ (l : List (κ × β)), (l.map Prod.fst).Nodup →
      ∀ p q : κ × β, p ∈ l → q ∈ l → p.1 = q.1 → p = q
  | [], _, _, _, hp, _, _ => absurd hp (List.not_mem_nil _)
  | a :: t, h, p, q, hp, hq, hpq => by
      rw [List.map_cons, List.nodup_cons] at h
      rcases List.mem_cons.mp hp with hp1 | hp1 <;>
        rcases List.mem_cons.mp hq with hq1 | hq1
      · rw [hp1, hq1]
      · exfalso
        apply h.1
        have hm : q.1 ∈ List.map Prod.fst t := List.mem_map_of_mem Prod.fst hq1
        rw [← hpq, hp1] at hm
        exact hm
      · exfalso
        apply h.1
        have hm : p.1 ∈ List.map Prod.fst t := List.mem_map_of_mem Prod.fst hp1
        rw [hpq, hq1] at hm
        exact hm
      · exact nodup_keys_mem_eq t h.2 p q hp1 hq1 hpq

theorem foldl_aerase_mem {κ β : Type} [DecidableEq κ] :
    ∀ (ids : List κ) (tbl : List (κ × β)) (p : κ × β),
      p ∈ ids.foldl (fun t k => aerase t k) tbl ↔ p ∈ tbl ∧ p.1 ∉ ids
  | [], tbl, p => by simp
  | k :: ks, tbl, p => by
      simp only [List.foldl_cons, foldl_aerase_mem ks, mem_aerase, List.mem_cons]
      tauto

theorem generateUniqueId_ne (lastId tick rnd : Nat) :
    generateUniqueId lastId tick rnd ≠ lastId := by
  unfold generateUniqueId
  have h32a : tick % 2 ^ 32 < 2 ^ 32 := Nat.mod_lt _ (by norm_num)
  have h32b : rnd % 2 ^ 32 < 2 ^ 32 := Nat.mod_lt _ (by norm_num)
  have hlt : tick % 2 ^ 32 * 2 ^ 32 + rnd % 2 ^ 32 < U64MOD := by
    rw [U64MOD_eq]
    norm_num at h32a h32b ⊢
    omega
  set newId := tick % 2 ^ 32 * 2 ^ 32 + rnd % 2 ^ 32 with hn
  by_cases h : newId = lastId
  · rw [if_pos h]
    intro hc
    rcases Nat.lt_or_ge (newId + 1) U64MOD with h1 | h1
    · rw [Nat.mod_eq_of_lt h1] at hc
      omega
    · have he : newId + 1 = U64MOD := by omega
      rw [he, Nat.mod_self] at hc
      rw [U64MOD_eq] at hlt he
      omega
  · rw [if_neg h]
    exact h

theorem generateUniqueIdSeq_head (lastId : Nat) (calls : List (Nat × Nat)) (x : Nat)
    (hx : (generateUniqueIdSeq lastId calls).head? = some x) : x ≠ lastId := by
  cases calls with
  | nil => simp [generateUniqueIdSeq] at hx
  | cons p rest =>
      obtain ⟨tick, rnd⟩ := p
      simp only [generateUniqueIdSeq, List.head?, Option.some.injEq] at hx
      exact hx ▸ generateUniqueId_ne lastId tick rnd

/-! ### C8 -/

/-- C8: consecutive `generateUniqueId` calls return pairwise-distinct
adjacent values: for any initial `lastId` and any sequence of
clock/`rand()` samples, no two adjacent outputs of the call sequence are
equal (each output also differs from the `lastId` it started from). -/
theorem generateUniqueId_consecutive_distinct (lastId : Nat) (calls : List (Nat × Nat)) :
    List.Chain' (fun a b => a ≠ b) (generateUniqueIdSeq lastId calls) := by
  induction calls generalizing lastId with
  | nil => exact List.chain'_nil
  | cons p rest ih =>
      obtain ⟨tick, rnd⟩ := p
      simp only [generateUniqueIdSeq]
      rw [List.chain'_cons']
      refine ⟨fun y hy => ?_, ih _⟩
      exact (generateUniqueIdSeq_head _ rest y (Option.mem_def.mp hy)).symm

/-! ### C9 -/

/-- C9: `connectToRemoteNode` inserts the `"ip:port"` endpoint into the
roster (which stays duplicate-free), builds exactly one probe frame with
region-name `"TEST"`, offset 0 and size 0, and the inserted peer is in
the roster regardless of whether the probe send succeeds. -/
theorem connect_roster_probe (roster : List (String × String)) (ip : String) (port : Nat)
    (stackJunk : SyncMessage) (sendOk : Bool)
    (hnod : (roster.map Prod.fst).Nodup) :
    alookup (connectToRemoteNode roster ip port stackJunk sendOk).1
        (ip ++ ":" ++ toString port) = some (ip ++ ":" ++ toString port) ∧
    ((connectToRemoteNode roster ip port stackJunk sendOk).1.map Prod.fst).Nodup ∧
    (connectToRemoteNode roster ip port stackJunk sendOk).2.1.memoryName = "TEST" ∧
    (connectToRemoteNode roster ip port stackJunk sendOk).2.1.offset = 0 ∧
    (connectToRemoteNode roster ip port stackJunk sendOk).2.1.size = 0 ∧
    (connectToRemoteNode roster ip port stackJunk sendOk).1 =
      (connectToRemoteNode roster ip port stackJunk false).1 := by
  refine ⟨alookup_aset_self _ _ _, nodup_keys_aset _ _ _ hnod, rfl, rfl, rfl, rfl⟩

/-- Witness for C9 at a concrete roster and endpoint. -/
theorem connect_roster_probe_witness :
    ((([("10.0.0.1:9000", "10.0.0.1:9000")] : List (String × String)).map Prod.fst).Nodup) ∧
    alookup (connectToRemoteNode [("10.0.0.1:9000", "10.0.0.1:9000")] "10.0.0.2" 9000
        default true).1 ("10.0.0.2" ++ ":" ++ toString 9000) =
      some ("10.0.0.2" ++ ":" ++ toString 9000) :=
  ⟨by decide,
   (connect_roster_probe [("10.0.0.1:9000", "10.0.0.1:9000")] "10.0.0.2" 9000 default true
     (by decide)).1⟩

/-! ### C3 -/

theorem markSeq_aux (memoryName : String) :
    ∀ (l : List (Nat × Nat)) (st : SyncState) (r : MemRegion),
      alookup st.regions memoryName = some r →
      r.version + l.length < U64MOD →
      (alookup (markSeq st memoryName l).regions memoryName =
        some ⟨r.version + l.length, if l.isEmpty then r.dirty else true, r.bytes⟩) ∧
      (l ≠ [] →
        alookup (markSeq st memoryName l).pending memoryName =
          some ((alookup st.pending memoryName).getD [] ++
            l.map (fun p => ⟨p.1, p.2, false⟩))) := by
  intro l
  induction l with
  | nil =>
      intro st r hreg _
      refine ⟨?_, fun h => absurd rfl h⟩
      simpa [markSeq] using hreg
  | cons p rest ih =>
      intro st r hreg hov
      obtain ⟨o, s⟩ := p
      have hmod : (r.version + 1) % U64MOD = r.version + 1 := by
        apply Nat.mod_eq_of_lt
        simp at hov
        omega
      have hstep : markRegionChanged st memoryName o s =
          { st with
              pending := aset st.pending memoryName
                ((alookup st.pending memoryName).getD [] ++ [⟨o, s, false⟩]),
              regions := aset st.regions memoryName
                { r with version := (r.version + 1) % U64MOD, dirty := true } } := by
        simp [markRegionChanged, hreg]
      have hreg1 : alookup (markRegionChanged st memoryName o s).regions memoryName =
          some ⟨r.version + 1, true, r.bytes⟩ := by
        rw [hstep]
        simp [alookup_aset_self, hmod]
      have hov1 : (r.version + 1) + rest.length < U64MOD := by
        simp at hov ⊢
        omega
      have hpend1 : alookup (markRegionChanged st memoryName o s).pending memoryName =
          some ((alookup st.pending memoryName).getD [] ++ [⟨o, s, false⟩]) := by
        rw [hstep]
        exact alookup_aset_self _ _ _
      obtain ⟨hregs, hpends⟩ :=
        ih (markRegionChanged st memoryName o s) ⟨r.version + 1, true, r.bytes⟩ hreg1 hov1
      constructor
      · rw [show markSeq st memoryName ((o, s) :: rest) =
            markSeq (markRegionChanged st memoryName o s) memoryName rest from rfl]
        rw [hregs]
        have harith : r.version + 1 + rest.length = r.version + (rest.length + 1) := by omega
        simp only [harith, List.isEmpty_cons]
        cases rest <;> simp
      · intro _
        rw [show markSeq st memoryName ((o, s) :: rest) =
            markSeq (markRegionChanged st memoryName o s) memoryName rest from rfl]
        cases rest with
        | nil =>
            simpa [markSeq] using hpend1
        | cons q qrest =>
            rw [hpends (by simp), hpend1]
            simp

/-- C3: for a registered region, each `markRegionChanged` call appends its
`(offset, size)` range to the region's pending list and bumps the
version / dirty metadata; after a non-empty sequence of `i` such calls
(absent 64-bit wraparound), the version has grown by exactly `i`, the
dirty flag is set, the bytes are untouched, and the pending list has
gained exactly the marked ranges in call order. -/
theorem markRegionChanged_version_dirty (st : SyncState) (memoryName : String)
    (r : MemRegion) (l : List (Nat × Nat))
    (hreg : alookup st.regions memoryName = some r)
    (hov : r.version + l.length < U64MOD)
    (hne : l ≠ []) :
    (∃ r', alookup (markSeq st memoryName l).regions memoryName = some r' ∧
       r'.version = r.version + l.length ∧ r'.dirty = true ∧ r'.bytes = r.bytes) ∧
    alookup (markSeq st memoryName l).pending memoryName =
      some ((alookup st.pending memoryName).getD [] ++
        l.map (fun p => ⟨p.1, p.2, false⟩)) := by
  obtain ⟨hregs, hpends⟩ := markSeq_aux memoryName l st r hreg hov
  refine ⟨⟨_, hregs, ?_, ?_, rfl⟩, hpends hne⟩
  · rfl
  · cases l with
    | nil => exact absurd rfl hne
    | cons p rest => simp

/-- Witness for C3: two calls on a 2-byte region at version 5 leave
version 7, dirty set, and both ranges pending in order. -/
theorem markRegionChanged_version_dirty_witness :
    (alookup (SyncState.mk [("R", ⟨5, false, [0, 0]⟩)] [] [] false).regions "R" =
      some ⟨5, false, [0, 0]⟩) ∧
    (∃ r', alookup (markSeq (SyncState.mk [("R", ⟨5, false, [0, 0]⟩)] [] [] false) "R"
        [(0, 1), (1, 1)]).regions "R" = some r' ∧
      r'.version = 5 + 2 ∧ r'.dirty = true ∧ r'.bytes = [0, 0]) :=
  ⟨by decide,
   ((markRegionChanged_version_dirty (SyncState.mk [("R", ⟨5, false, [0, 0]⟩)] [] [] false)
      "R" ⟨5, false, [0, 0]⟩ [(0, 1), (1, 1)] (by decide) (by decide) (by decide)).1)⟩

/-! ### C6 -/

theorem timedOut64_eq (now startTime : Nat) (h1 : startTime ≤ now) (h2 : now < U64MOD) :
    timedOut64 now startTime = decide (UPDATE_TIMEOUT_MS < now - startTime) := by
  unfold timedOut64
  have ha : now + U64MOD - startTime = (now - startTime) + U64MOD := by omega
  rw [ha, Nat.add_mod_right, Nat.mod_eq_of_lt (by omega)]

/-- C6: one `checkUpdateTimeouts` call at time `now` removes from the
in-flight table exactly the updates whose recorded first-frame timestamp
is more than `UPDATE_TIMEOUT_MS = 5000` ms old, reports exactly those
removed ids, retains every younger update, and changes neither the
regions nor the pending map, invoking no callback. -/
theorem checkUpdateTimeouts_exact (st : SyncState) (now : Nat)
    (hnod : (st.inflight.map Prod.fst).Nodup)
    (hmono : ∀ p ∈ st.inflight, p.2.startTime ≤ now)
    (hnow : now < U64MOD) :
    (∀ k info, (k, info) ∈ (checkUpdateTimeouts st now).1.inflight ↔
       ((k, info) ∈ st.inflight ∧ now - info.startTime ≤ UPDATE_TIMEOUT_MS)) ∧
    (checkUpdateTimeouts st now).2.1 =
      (st.inflight.filter
        (fun p => decide (UPDATE_TIMEOUT_MS < now - p.2.startTime))).map (fun p => p.1) ∧
    (checkUpdateTimeouts st now).1.regions = st.regions ∧
    (checkUpdateTimeouts st now).1.pending = st.pending ∧
    (checkUpdateTimeouts st now).2.2 = [] := by
  have hfil : st.inflight.filter (fun p => timedOut64 now p.2.startTime) =
      st.inflight.filter (fun p => decide (UPDATE_TIMEOUT_MS < now - p.2.startTime)) :=
    List.filter_congr (fun p hp => by rw [timedOut64_eq now _ (hmono p hp) hnow])
  refine ⟨?_, ?_, rfl, rfl, rfl⟩
  · intro k info
    show (k, info) ∈ List.foldl (fun t k => aerase t k) st.inflight _ ↔ _
    rw [foldl_aerase_mem]
    constructor
    · rintro ⟨hmem, hnotin⟩
      refine ⟨hmem, ?_⟩
      by_contra hgt
      apply hnotin
      apply List.mem_map_of_mem
      rw [List.mem_filter]
      refine ⟨hmem, ?_⟩
      rw [timedOut64_eq now _ (hmono _ hmem) hnow]
      simpa using Nat.lt_of_not_le hgt
    · rintro ⟨hmem, hle⟩
      refine ⟨hmem, fun hin => ?_⟩
      obtain ⟨q, hq, hqk⟩ := List.mem_map.mp hin
      rw [List.mem_filter] at hq
      have hq2 := hq.2
      rw [timedOut64_eq now _ (hmono _ hq.1) hnow] at hq2
      have heqq : q = (k, info) := nodup_keys_mem_eq st.inflight hnod q (k, info) hq.1 hmem hqk
      rw [heqq] at hq2
      simp at hq2
      omega
  · show (st.inflight.filter (fun p => timedOut64 now p.2.startTime)).map (fun p => p.1) = _
    rw [hfil]

/-- Witness for C6: at `now = 5001`, the update started at 0 (age 5001) is
removed and reported; the update started at 4000 (age 1001) is kept. -/
theorem checkUpdateTimeouts_exact_witness :
    (((SyncState.mk [] [] [(1, ⟨1, [], 0⟩), (2, ⟨2, [], 4000⟩)] false).inflight.map
        Prod.fst).Nodup) ∧
    ((2, (⟨2, [], 4000⟩ : UpdateInfo)) ∈
        (checkUpdateTimeouts (SyncState.mk [] [] [(1, ⟨1, [], 0⟩), (2, ⟨2, [], 4000⟩)] false)
          5001).1.inflight ↔
      ((2, (⟨2, [], 4000⟩ : UpdateInfo)) ∈
          (SyncState.mk [] [] [(1, ⟨1, [], 0⟩), (2, ⟨2, [], 4000⟩)] false).inflight ∧
        5001 - 4000 ≤ UPDATE_TIMEOUT_MS)) :=
  ⟨by decide,
   (checkUpdateTimeouts_exact (SyncState.mk [] [] [(1, ⟨1, [], 0⟩), (2, ⟨2, [], 4000⟩)] false)
      5001 (by decide) (by decide) (by decide)).1 2 ⟨2, [], 4000⟩⟩

/-! ### C10 -/

theorem writeMem_take_get? (bytes data : List Nat) (off sz i : Nat)
    (hb : off + sz ≤ bytes.length) (hd : sz ≤ data.length)
    (h1 : off ≤ i) (h2 : i < off + sz) :
    (writeMem bytes off (data.take sz)).get? i = data.get? (i - off) := by
  have hlen : (data.take sz).length = sz := by
    rw [List.length_take]
    omega
  rw [writeMem_get?_in bytes off (data.take sz) i h1 (by omega) (by omega)]
  have hjlt : i - off < sz := by omega
  have htake : (data.take sz).get? (i - off) = data.get? (i - off) :=
    get?_take_lt data sz (i - off) hjlt
  rw [List.getD_eq_getElem?_getD, ← List.get?_eq_getElem?, htake]
  cases hg : data.get? (i - off) with
  | none =>
      rw [List.get?_eq_none] at hg
      omega
  | some v => simp

/-- C10: `applyUpdate` on a frame whose region is registered and in
bounds overwrites exactly the bytes `[offset, offset + size)` of that
region with the frame payload, leaves every other byte, every other
region, the pending map and the in-flight table unchanged; a frame naming
an unregistered region changes nothing and fires no callback. -/
theorem applyUpdate_frame_effect (st : SyncState) (message : SyncMessage) (r : MemRegion)
    (hreg : alookup st.regions message.memoryName = some r)
    (hbound : message.offset + message.size ≤ r.bytes.length)
    (hdata : message.size ≤ message.data.length) :
    (∃ r', alookup (applyUpdate st message).1.regions message.memoryName = some r' ∧
       r'.version = r.version ∧ r'.dirty = r.dirty ∧
       r'.bytes.length = r.bytes.length ∧
       (∀ i, message.offset ≤ i → i < message.offset + message.size →
          r'.bytes.get? i = message.data.get? (i - message.offset)) ∧
       (∀ i, i < message.offset ∨ message.offset + message.size ≤ i →
          r'.bytes.get? i = r.bytes.get? i)) ∧
    (∀ name', name' ≠ message.memoryName →
       alookup (applyUpdate st message).1.regions name' = alookup st.regions name') ∧
    (applyUpdate st message).1.pending = st.pending ∧
    (applyUpdate st message).1.inflight = st.inflight ∧
    (∀ m2 : SyncMessage, alookup st.regions m2.memoryName = none →
       applyUpdate st m2 = (st, [])) := by
  have happly : (applyUpdate st message).1 =
      { st with
          regions := aset st.regions message.memoryName
            { r with
                bytes := (writeMem r.bytes message.offset (message.data.take message.size)) } } := by
    simp [applyUpdate, hreg]
  refine ⟨⟨{ r with
              bytes := (writeMem r.bytes message.offset (message.data.take message.size)) },
          by rw [happly]; exact alookup_aset_self _ _ _, rfl, rfl, ?_, ?_, ?_⟩,
          ?_, by rw [happly], by rw [happly], ?_⟩
  · exact writeMem_length _ _ _
  · intro i hi1 hi2
    exact writeMem_take_get? r.bytes message.data message.offset message.size i hbound hdata hi1 hi2
  · intro i hi
    apply writeMem_get?_out
    rcases hi with h | h
    · exact Or.inl h
    · right
      rw [List.length_take]
      omega
  · intro name' hne
    rw [happly]
    exact alookup_aset_ne _ _ _ _ hne
  · intro m2 hm2
    simp [applyUpdate, hm2]

/-- Witness for C10: a 4-byte frame at offset 1 of a 6-byte region
rewrites bytes 1..4 and keeps bytes 0 and 5. -/
theorem applyUpdate_frame_effect_witness :
    (alookup (SyncState.mk [("R", ⟨3, true, [9, 9, 9, 9, 9, 9]⟩)] [] [] true).regions "R" =
      some ⟨3, true, [9, 9, 9, 9, 9, 9]⟩) ∧
    (∃ r', alookup (applyUpdate
        (SyncState.mk [("R", ⟨3, true, [9, 9, 9, 9, 9, 9]⟩)] [] [] true)
        ⟨"R", MSG_SINGLE_UPDATE, 0, 1, 4, 0, [1, 2, 3, 4]⟩).1.regions "R" = some r' ∧
      r'.version = 3 ∧ r'.dirty = true ∧
      r'.bytes.length = 6 ∧
      (∀ i, 1 ≤ i → i < 1 + 4 →
        r'.bytes.get? i = [1, 2, 3, 4].get? (i - 1)) ∧
      (∀ i, i < 1 ∨ 1 + 4 ≤ i → r'.bytes.get? i = [9, 9, 9, 9, 9, 9].get? i)) :=
  ⟨by decide,
   by
    have h := (applyUpdate_frame_effect
      (SyncState.mk [("R", ⟨3, true, [9, 9, 9, 9, 9, 9]⟩)] [] [] true)
      ⟨"R", MSG_SINGLE_UPDATE, 0, 1, 4, 0, [1, 2, 3, 4]⟩ ⟨3, true, [9, 9, 9, 9, 9, 9]⟩
      (by decide) (by decide) (by decide)).1
    exact h⟩

/-! ### C1 -/

theorem emitFrames_length (memoryName : String) (bytes : List Nat) (uid ts n : Nat) :
    ∀ (i : Nat) (cs : List MemoryChange),
      (emitFrames memoryName bytes uid ts n i cs).length = cs.length
  | _, [] => rfl
  | i, _ :: cs => by
      simp only [emitFrames, List.length_cons]
      rw [emitFrames_length memoryName bytes uid ts n (i + 1) cs]

theorem emitFrames_get? (memoryName : String) (bytes : List Nat) (uid ts n : Nat) :
    ∀ (cs : List MemoryChange) (i j : Nat),
      (emitFrames memoryName bytes uid ts n i cs).get? j =
        (cs.get? j).map (fun c => mkSyncFrame memoryName bytes uid ts n (i + j) c)
  | [], i, j => by simp [emitFrames]
  | c :: cs, i, 0 => by simp [emitFrames]
  | c :: cs, i, j + 1 => by
      simp only [emitFrames, List.get?]
      rw [emitFrames_get? memoryName bytes uid ts n cs (i + 1) j]
      have : i + 1 + j = i + (j + 1) := by omega
      rw [this]

/-- C1: when the Synchronizer cycle fires on a region whose pending list
holds `n ≥ 1` changes, it emits exactly `n` frames sharing the one update
id, in insertion order, each frame carrying its change's `(offset, size)`;
the frame types are SINGLE for `n = 1`, and START / CHUNK* / END by
position for `n ≥ 2`; afterwards the region's pending list is empty and
its dirty flag is clear. -/
theorem sync_cycle_multi_emission (st : SyncState) (memoryName : String) (r : MemRegion)
    (changes : List MemoryChange) (lastVersion uid ts : Nat)
    (hreg : alookup st.regions memoryName = some r)
    (hver : lastVersion < r.version)
    (hdirty : r.dirty = true)
    (hpend : alookup st.pending memoryName = some changes)
    (hne : changes ≠ []) :
    (memorySyncCycle st memoryName lastVersion uid ts).2.1.length = changes.length ∧
    (∀ j c, changes.get? j = some c →
       ∃ f, (memorySyncCycle st memoryName lastVersion uid ts).2.1.get? j = some f ∧
         f.updateId = uid ∧ f.offset = c.offset ∧ f.size = c.size ∧
         f.msgType =
           (if changes.length = 1 then MSG_SINGLE_UPDATE
            else if j = 0 then MSG_START_UPDATE
            else if j = changes.length - 1 then MSG_END_UPDATE
            else MSG_UPDATE_CHUNK)) ∧
    alookup (memorySyncCycle st memoryName lastVersion uid ts).1.pending memoryName =
      some [] ∧
    (∃ r', alookup (memorySyncCycle st memoryName lastVersion uid ts).1.regions memoryName =
        some r' ∧ r'.dirty = false ∧ r'.version = r.version ∧ r'.bytes = r.bytes) := by
  have hempty : changes.isEmpty = false := by
    cases changes with
    | nil => exact absurd rfl hne
    | cons _ _ => rfl
  have hcycle : memorySyncCycle st memoryName lastVersion uid ts =
      ({ st with
          pending := aset st.pending memoryName [],
          regions := aset st.regions memoryName { r with dirty := false } },
       emitFrames memoryName r.bytes uid ts changes.length 0 changes, r.version) := by
    simp [memorySyncCycle, hreg, hver, hdirty, hpend, hempty]
  rw [hcycle]
  refine ⟨emitFrames_length _ _ _ _ _ _ _, ?_, alookup_aset_self _ _ _,
         ⟨{ r with dirty := false }, alookup_aset_self _ _ _, rfl, rfl, rfl⟩⟩
  intro j c hjc
  refine ⟨mkSyncFrame memoryName r.bytes uid ts changes.length (0 + j) c, ?_, rfl, rfl, rfl, ?_⟩
  · rw [emitFrames_get? memoryName r.bytes uid ts changes.length changes 0 j, hjc]
    rfl
  · have hlen : 0 < changes.length := List.length_pos.mpr hne
    have hjlt : j < changes.length := by
      by_contra hge
      rw [List.get?_eq_none.mpr (by omega)] at hjc
      exact Option.noConfusion hjc
    simp only [mkSyncFrame, Nat.zero_add]
    by_cases h1 : changes.length = 1
    · have : ¬ (1 < changes.length) := by omega
      rw [if_neg this, if_pos h1]
    · have : 1 < changes.length := by omega
      rw [if_pos this, if_neg h1]

/-- Witness for C1: a three-change batch emits START/CHUNK/END frames with
the shared id and matching ranges, then the pending list is empty. -/
theorem sync_cycle_multi_emission_witness :
    (alookup (SyncState.mk [("R", ⟨2, true, [10, 11, 12, 13]⟩)]
        [("R", [⟨2, 1, false⟩, ⟨0, 1, false⟩, ⟨3, 1, false⟩])] [] false).pending "R" =
      some [⟨2, 1, false⟩, ⟨0, 1, false⟩, ⟨3, 1, false⟩]) ∧
    alookup (memorySyncCycle (SyncState.mk [("R", ⟨2, true, [10, 11, 12, 13]⟩)]
        [("R", [⟨2, 1, false⟩, ⟨0, 1, false⟩, ⟨3, 1, false⟩])] [] false)
      "R" 0 77 5).1.pending "R" = some [] :=
  ⟨by decide,
   (sync_cycle_multi_emission (SyncState.mk [("R", ⟨2, true, [10, 11, 12, 13]⟩)]
      [("R", [⟨2, 1, false⟩, ⟨0, 1, false⟩, ⟨3, 1, false⟩])] [] false)
      "R" ⟨2, true, [10, 11, 12, 13]⟩ [⟨2, 1, false⟩, ⟨0, 1, false⟩, ⟨3, 1, false⟩]
      0 77 5 (by decide) (by decide) (by decide) (by decide) (by decide)).2.2.1⟩

/-! ### C4 -/

/-- Concrete state refuting C4 as stated: a region registered with 64
bytes (legal for `initializeSharedMemory`), dirty and version-bumped, with
no pending changes. -/
def c4State : SyncState :=
  SyncState.mk [("R", ⟨1, true, List.replicate 64 0⟩)] [] [] false

/-- Counterexample to C4: on a 64-byte region with an empty pending list,
the fallback frame emitted by the Synchronizer carries
`size = sizeof(MemoryLayout) = 32`, not the region's registered size 64. -/
theorem sync_fallback_size_counterexample :
    (alookup c4State.regions "R").map (fun r => r.bytes.length) = some 64 ∧
    ((memorySyncCycle c4State "R" 0 7 0).2.1.map (fun f => (f.msgType, f.offset, f.size))) =
      [(MSG_SINGLE_UPDATE, 0, 32)] ∧
    (32 : Nat) ≠ 64 := by
  refine ⟨by decide, by decide, by decide⟩

/-- C4 (amended): when the Synchronizer observes `version > last_sent_version`
and `dirty = true` but no pending changes, it emits exactly one SINGLE
frame with the fresh update id covering `(0, sizeof(MemoryLayout))` —
offset 0 and the fixed struct size `MEMORY_LAYOUT_SIZE = 32`, not the
region's registered size — carrying the first `sizeof(MemoryLayout)`
bytes of the region. -/
theorem sync_fallback_layout_size (st : SyncState) (memoryName : String) (r : MemRegion)
    (lastVersion uid ts : Nat)
    (hreg : alookup st.regions memoryName = some r)
    (hver : lastVersion < r.version)
    (hdirty : r.dirty = true)
    (hpend : alookup st.pending memoryName = none ∨
             alookup st.pending memoryName = some []) :
    (memorySyncCycle st memoryName lastVersion uid ts).2.1 =
      [{ memoryName := memoryName, msgType := MSG_SINGLE_UPDATE, updateId := uid,
         offset := 0, size := MEMORY_LAYOUT_SIZE, timestamp := ts,
         data := r.bytes.take MEMORY_LAYOUT_SIZE }] ∧
    (∃ r', alookup (memorySyncCycle st memoryName lastVersion uid ts).1.regions memoryName =
        some r' ∧ r'.dirty = false ∧ r'.version = r.version ∧ r'.bytes = r.bytes) := by
  rcases hpend with h | h
  · have hcycle : memorySyncCycle st memoryName lastVersion uid ts =
        ({ st with regions := aset st.regions memoryName { r with dirty := false } },
         [fallbackFrame memoryName r.bytes uid ts], r.version) := by
      simp [memorySyncCycle, hreg, hver, hdirty, h]
    rw [hcycle]
    exact ⟨rfl, { r with dirty := false }, alookup_aset_self _ _ _, rfl, rfl, rfl⟩
  · have hcycle : memorySyncCycle st memoryName lastVersion uid ts =
        ({ st with regions := aset st.regions memoryName { r with dirty := false } },
         [fallbackFrame memoryName r.bytes uid ts], r.version) := by
      simp [memorySyncCycle, hreg, hver, hdirty, h]
    rw [hcycle]
    exact ⟨rfl, { r with dirty := false }, alookup_aset_self _ _ _, rfl, rfl, rfl⟩

/-- Witness for the amended C4 at the 64-byte region: one SINGLE frame of
size 32 at offset 0. -/
theorem sync_fallback_layout_size_witness :
    (alookup c4State.pending "R" = none ∨ alookup c4State.pending "R" = some []) ∧
    (memorySyncCycle c4State "R" 0 7 0).2.1 =
      [{ memoryName := "R", msgType := MSG_SINGLE_UPDATE, updateId := 7,
         offset := 0, size := MEMORY_LAYOUT_SIZE, timestamp := 0,
         data := (List.replicate 64 0).take MEMORY_LAYOUT_SIZE }] :=
  ⟨Or.inl (by decide),
   (sync_fallback_layout_size c4State "R" ⟨1, true, List.replicate 64 0⟩ 0 7 0
      (by decide) (by decide) (by decide) (Or.inl (by decide))).1⟩

/-! ### C5 -/

/-- First START frame of update 42, received at time 0. -/
def c5FirstFrame : SyncMessage := ⟨"R", MSG_START_UPDATE, 42, 0, 1, 0, [7]⟩

/-- A re-ordered duplicate START frame of update 42, arriving at time 100. -/
def c5SecondFrame : SyncMessage := ⟨"R", MSG_START_UPDATE, 42, 1, 1, 0, [8]⟩

/-- Receiver state after the first START of update 42 arrived at time 0. -/
def c5State : SyncState :=
  SyncState.mk [] [] [(42, ⟨42, [c5FirstFrame], 0⟩)] false

/-- Counterexample to C5: when a START frame for the already-present
update 42 arrives at time 100, the recorded first-frame timestamp 0 is
overwritten with 100 (the frame is appended, but the timestamp is not
preserved as the claim states). -/
theorem start_timestamp_counterexample :
    (alookup c5State.inflight 42).map (fun u => u.startTime) = some 0 ∧
    (alookup (processMessage c5State 100 c5SecondFrame).1.inflight 42).map
        (fun u => u.startTime) = some 100 ∧
    (alookup (processMessage c5State 100 c5SecondFrame).1.inflight 42).map
        (fun u => u.chunks) = some [c5FirstFrame, c5SecondFrame] ∧
    (100 : Nat) ≠ 0 := by
  refine ⟨by decide, by decide, by decide, by decide⟩

/-- C5 (amended): a START frame for an update id already present in the
in-flight table appends the frame to the update's chunk list but
overwrites the recorded timestamp with the arrival time of this START —
the table thus records the arrival time of the most recent START frame
for the id, not necessarily of the first frame. -/
theorem start_overwrites_timestamp (st : SyncState) (now : Nat) (message : SyncMessage)
    (info : UpdateInfo)
    (htype : message.msgType = MSG_START_UPDATE)
    (hin : alookup st.inflight message.updateId = some info) :
    alookup (processMessage st now message).1.inflight message.updateId =
      some ⟨message.updateId, info.chunks ++ [message], now⟩ := by
  simp only [processMessage, htype, hin, Option.getD_some]
  exact alookup_aset_self _ _ _

/-- Witness for the amended C5 at the concrete duplicate-START input. -/
theorem start_overwrites_timestamp_witness :
    (c5SecondFrame.msgType = MSG_START_UPDATE) ∧
    alookup (processMessage c5State 100 c5SecondFrame).1.inflight c5SecondFrame.updateId =
      some ⟨c5SecondFrame.updateId, [c5FirstFrame] ++ [c5SecondFrame], 100⟩ :=
  ⟨by decide,
   start_overwrites_timestamp c5State 100 c5SecondFrame ⟨42, [c5FirstFrame], 0⟩
     (by decide) (by decide)⟩

/-! ### C7 -/

/-- C7: an END frame whose update id is absent from the in-flight table
falls back to a single apply — within bounds and with a registered region
and callback, the frame's bytes land in the region, the callback fires
exactly once with `(name, offset, size)` and the in-flight table is
untouched; a CHUNK frame with an unknown id is dropped, changing nothing
and firing no callback. -/
theorem receiver_unknown_id_handling (st : SyncState) (now : Nat) (message : SyncMessage)
    (r : MemRegion)
    (htype : message.msgType = MSG_END_UPDATE)
    (hin : alookup st.inflight message.updateId = none)
    (hreg : alookup st.regions message.memoryName = some r)
    (hbound : message.offset + message.size ≤ r.bytes.length)
    (hdata : message.size ≤ message.data.length)
    (hcb : st.callbackRegistered = true) :
    ((processMessage st now message).2 =
       [(message.memoryName, message.offset, message.size)] ∧
     (processMessage st now message).1.inflight = st.inflight ∧
     (processMessage st now message).1.pending = st.pending ∧
     (∃ r', alookup (processMessage st now message).1.regions message.memoryName = some r' ∧
        (∀ i, message.offset ≤ i → i < message.offset + message.size →
           r'.bytes.get? i = message.data.get? (i - message.offset)) ∧
        (∀ i, i < message.offset ∨ message.offset + message.size ≤ i →
           r'.bytes.get? i = r.bytes.get? i))) ∧
    (∀ m2 : SyncMessage, m2.msgType = MSG_UPDATE_CHUNK →
       alookup st.inflight m2.updateId = none →
       processMessage st now m2 = (st, [])) := by
  have hstep : processMessage st now message = applyUpdate st message := by
    simp [processMessage, htype, hin]
  have happly : applyUpdate st message =
      ({ st with
          regions := aset st.regions message.memoryName
            { r with
                bytes := (writeMem r.bytes message.offset (message.data.take message.size)) } },
       [(message.memoryName, message.offset, message.size)]) := by
    simp [applyUpdate, hreg, hcb]
  rw [hstep, happly]
  refine ⟨⟨rfl, rfl, rfl,
          ⟨{ r with
              bytes := (writeMem r.bytes message.offset (message.data.take message.size)) },
           alookup_aset_self _ _ _, ?_, ?_⟩⟩, ?_⟩
  · intro i h1 h2
    exact writeMem_take_get? r.bytes message.data message.offset message.size i hbound hdata h1 h2
  · intro i hi
    apply writeMem_get?_out
    rcases hi with h | h
    · exact Or.inl h
    · right
      rw [List.length_take]
      omega
  · intro m2 ht2 hi2
    simp [processMessage, ht2, hi2]

/-- Witness for C7: an END for unknown id 99 lands its 4 bytes at offset 1
of the registered 6-byte region and reports one callback; a CHUNK for
unknown id 98 is dropped. -/
theorem receiver_unknown_id_handling_witness :
    (alookup (SyncState.mk [("R", ⟨0, false, [9, 9, 9, 9, 9, 9]⟩)] [] [] true).inflight 99 =
      none) ∧
    ((processMessage (SyncState.mk [("R", ⟨0, false, [9, 9, 9, 9, 9, 9]⟩)] [] [] true) 0
        ⟨"R", MSG_END_UPDATE, 99, 1, 4, 0, [1, 2, 3, 4]⟩).2 = [("R", 1, 4)] ∧
      (processMessage (SyncState.mk [("R", ⟨0, false, [9, 9, 9, 9, 9, 9]⟩)] [] [] true) 0
        ⟨"R", MSG_END_UPDATE, 99, 1, 4, 0, [1, 2, 3, 4]⟩).1.inflight =
        (SyncState.mk [("R", ⟨0, false, [9, 9, 9, 9, 9, 9]⟩)] [] [] true).inflight) :=
  ⟨by decide,
   by
    have h := (receiver_unknown_id_handling
      (SyncState.mk [("R", ⟨0, false, [9, 9, 9, 9, 9, 9]⟩)] [] [] true) 0
      ⟨"R", MSG_END_UPDATE, 99, 1, 4, 0, [1, 2, 3, 4]⟩ ⟨0, false, [9, 9, 9, 9, 9, 9]⟩
      (by decide) (by decide) (by decide) (by decide) (by decide) (by decide)).1
    exact ⟨h.1, h.2.1⟩⟩

/-! ### C2 -/

theorem applyChunks_acc :
    ∀ (msgs : List SyncMessage) (st : SyncState) (ev : List NetEvent),
      msgs.foldl
        (fun acc m =>
          let r := applyUpdate acc.1 m
          (r.1, acc.2 ++ r.2)) (st, ev) =
      ((applyChunks st msgs).1, ev ++ (applyChunks st msgs).2)
  | [], st, ev => by simp [applyChunks]
  | m :: ms, st, ev => by
      simp only [applyChunks, List.foldl_cons]
      rw [applyChunks_acc ms, applyChunks_acc ms]
      simp

theorem applyChunks_cons (st : SyncState) (m : SyncMessage) (ms : List SyncMessage) :
    applyChunks st (m :: ms) =
      ((applyChunks (applyUpdate st m).1 ms).1,
       (applyUpdate st m).2 ++ (applyChunks (applyUpdate st m).1 ms).2) := by
  show (m :: ms).foldl _ (st, []) = _
  rw [List.foldl_cons, applyChunks_acc]
  simp

theorem applyUpdate_cb (st : SyncState) (m : SyncMessage) :
    (applyUpdate st m).1.callbackRegistered = st.callbackRegistered := by
  cases h : alookup st.regions m.memoryName <;> simp [applyUpdate, h]

theorem applyUpdate_congr (st₁ st₂ : SyncState) (m : SyncMessage)
    (hr : st₁.regions = st₂.regions)
    (hc : st₁.callbackRegistered = st₂.callbackRegistered) :
    (applyUpdate st₁ m).1.regions = (applyUpdate st₂ m).1.regions ∧
    (applyUpdate st₁ m).2 = (applyUpdate st₂ m).2 := by
  cases h : alookup st₂.regions m.memoryName with
  | none => simp [applyUpdate, hr, h]
  | some r => simp [applyUpdate, hr, h, hc]

theorem applyChunks_congr :
    ∀ (msgs : List SyncMessage) (st₁ st₂ : SyncState),
      st₁.regions = st₂.regions →
      st₁.callbackRegistered = st₂.callbackRegistered →
      (applyChunks st₁ msgs).1.regions = (applyChunks st₂ msgs).1.regions ∧
      (applyChunks st₁ msgs).2 = (applyChunks st₂ msgs).2
  | [], st₁, st₂, hr, hc => by simp [applyChunks, hr]
  | m :: ms, st₁, st₂, hr, hc => by
      rw [applyChunks_cons, applyChunks_cons]
      obtain ⟨h1, h2⟩ := applyUpdate_congr st₁ st₂ m hr hc
      have hcb : (applyUpdate st₁ m).1.callbackRegistered =
          (applyUpdate st₂ m).1.callbackRegistered := by
        rw [applyUpdate_cb, applyUpdate_cb, hc]
      obtain ⟨h3, h4⟩ := applyChunks_congr ms (applyUpdate st₁ m).1 (applyUpdate st₂ m).1 h1 hcb
      exact ⟨h3, by rw [h2, h4]⟩

/-- C2: completing a multipart update whose id is present in the in-flight
table applies its buffered frames sorted by ascending offset: provided the
frames' offsets are pairwise distinct, the resulting regions and callback
sequence equal those of applying the frames in the unique
ascending-offset order `s` — for any arrival order of the buffered
frames (any permutation yields the same `s`). -/
theorem applyMultipart_ascending_order (st : SyncState) (updateId : Nat)
    (info : UpdateInfo) (s : List SyncMessage)
    (hin : alookup st.inflight updateId = some info)
    (hnod : (info.chunks.map (fun m => m.offset)).Nodup)
    (hperm : List.Perm s info.chunks)
    (hsorted : List.Sorted msgLt s) :
    (applyMultipartUpdate st updateId).1.regions = (applyChunks st s).1.regions ∧
    (applyMultipartUpdate st updateId).2 = (applyChunks st s).2 := by
  have hpermS : List.Perm (sortChunks info.chunks) info.chunks :=
    List.perm_insertionSort msgLe info.chunks
  have hle : List.Sorted msgLe (sortChunks info.chunks) :=
    List.sorted_insertionSort msgLe info.chunks
  have hnodS : ((sortChunks info.chunks).map (fun m => m.offset)).Nodup :=
    ((hpermS.map (fun m => m.offset)).nodup_iff).mpr hnod
  have hpairne : List.Pairwise (fun a b : SyncMessage => a.offset ≠ b.offset)
      (sortChunks info.chunks) := List.pairwise_map.mp hnodS
  have hLt : List.Sorted msgLt (sortChunks info.chunks) :=
    (hle.and hpairne).imp (fun h => Nat.lt_of_le_of_ne h.1 h.2)
  have heq : sortChunks info.chunks = s :=
    List.eq_of_perm_of_sorted (hpermS.trans hperm.symm) hLt hsorted
  have hmulti : applyMultipartUpdate st updateId =
      applyChunks
        { st with
            inflight := aset st.inflight updateId { info with chunks := sortChunks info.chunks } }
        (sortChunks info.chunks) := by
    simp [applyMultipartUpdate, hin]
  rw [hmulti, heq]
  exact applyChunks_congr s _ st rfl rfl

/-- Frame at offset 0 of the two-chunk update 5. -/
def c2Lo : SyncMessage := ⟨"R", MSG_UPDATE_CHUNK, 5, 0, 1, 0, [7]⟩

/-- Frame at offset 2 of the two-chunk update 5. -/
def c2Hi : SyncMessage := ⟨"R", MSG_END_UPDATE, 5, 2, 1, 0, [9]⟩

/-- Receiver state holding update 5's frames buffered in reversed arrival
order. -/
def c2State : SyncState :=
  SyncState.mk [("R", ⟨0, false, [0, 0, 0, 0]⟩)] [] [(5, ⟨5, [c2Hi, c2Lo], 0⟩)] true

/-- Witness for C2: the out-of-order buffered frames of update 5 are
applied exactly as in ascending offset order. -/
theorem applyMultipart_ascending_order_witness :
    List.Perm [c2Lo, c2Hi] [c2Hi, c2Lo] ∧
    (applyMultipartUpdate c2State 5).2 = (applyChunks c2State [c2Lo, c2Hi]).2 :=
  ⟨by decide,
   (applyMultipart_ascending_order c2State 5 ⟨5, [c2Hi, c2Lo], 0⟩ [c2Lo, c2Hi]
      (by decide) (by decide) (by decide) (by decide)).2⟩

end AdaptorMk4
